import Mathlib

/-!
Verification of the provider-resilient news aggregation engine
(`backend/news_ingest.py`): provider health tracking (circuit breaker),
the combined fetch pipeline (normalize, dedup, sort, truncate), and the
two-tier sentiment classifier.

The Python module is shallowly embedded: external effects (HTTP calls,
the wall clock, the optional statistical sentiment analyzer, URL host
extraction, ISO timestamp parsing) are parameters of the Lean functions;
the module's own control flow and state updates are translated directly.
-/

namespace NewsIngest

/-- Per-provider circuit-breaker record stored in `_provider_state`:
`fails` is the "fails" counter, `backoff_until` models the optional
"backoff_until" dictionary key (absent key = `none`). Times are `Nat`. -/
structure ProviderHealth where
  fails : Nat
  backoff_until : Option Nat
  deriving Repr, DecidableEq

/-- The `_provider_state` dictionary: an association list from provider
name to its health record. -/
abbrev HealthState := List (String × ProviderHealth)

/-- `_provider_state.get(name)`: first (only) entry for `name`, if any. -/
def getHealth (st : HealthState) (name : String) : Option ProviderHealth :=
  (st.find? (fun p => p.1 == name)).map Prod.snd

/-- Dictionary write `_provider_state[name] = h`: replace the existing
entry or append a new one. -/
def setHealth : HealthState → String → ProviderHealth → HealthState
  | [], name, h => [(name, h)]
  | (n, h0) :: rest, name, h =>
    if n == name then (n, h) :: rest else (n, h0) :: setHealth rest name h

/-- `_provider_ok(name)`: eligible unless a `backoff_until` is recorded
and the current time is still strictly before it.  A pure read: it takes
the state and returns only a `Bool`. -/
def _provider_ok (st : HealthState) (name : String) (now : Nat) : Bool :=
  match getHealth st name with
  | none => true
  | some s =>
    match s.backoff_until with
    | none => true
    | some b => if now < b then false else true

/-- The failure branch of the adapters' `except` blocks: increment the
`fails` counter (creating the record via `setdefault` if absent) and,
once the counter has reached `_FAIL_THRESHOLD`, set
`backoff_until = now + _BACKOFF_BASE * 2 ** (fails - _FAIL_THRESHOLD)`. -/
def recordFailure (threshold base now : Nat) (s0 : Option ProviderHealth) :
    ProviderHealth :=
  let s := s0.getD ⟨0, none⟩
  let fails := s.fails + 1
  if threshold ≤ fails then
    ⟨fails, some (now + base * 2 ^ (fails - threshold))⟩
  else
    ⟨fails, s.backoff_until⟩

/-- Substring test on character lists, modelling Python's `k in t`. -/
def containsSub (hay needle : List Char) : Bool :=
  match hay with
  | [] => needle.isEmpty
  | _ :: t => needle.isPrefixOf hay || containsSub t needle

/-- Python's `k in t` on strings. -/
def strContains (hay needle : String) : Bool :=
  containsSub hay.data needle.data

/-- `_simple_sentiment(text)`: the Tier-1 lexical rule table.  Empty
text (Python falsy) is `neutral`; otherwise the lowercased text is
scanned for alarm keywords first, then concern, then advisory; no match
gives `neutral`. -/
def _simple_sentiment (text : String) : String :=
  if text = "" then "neutral"
  else
    let t := text.toLower
    if (["outbreak", "alarm", "urgent", "surge", "spike"]).any
        (fun k => strContains t k) then "alarm"
    else if (["concern", "worry", "rise", "increase"]).any
        (fun k => strContains t k) then "concern"
    else if (["advisory", "recommend", "precaution", "warn"]).any
        (fun k => strContains t k) then "advisory"
    else "neutral"

/-- `_enhanced_sentiment(text)`.  The NLTK VADER analyzer is external:
`scorer = some f` models an available analyzer whose
`polarity_scores(text)["compound"]` is `f text`; `scorer = none` models
an unavailable analyzer or one whose import/construction/scoring raises
(the `except` clause), in which case the code falls back to
`_simple_sentiment`.  Empty text returns `neutral` before the analyzer
is consulted. -/
def _enhanced_sentiment (scorer : Option (String → Rat)) (text : String) :
    String :=
  if text = "" then "neutral"
  else
    match scorer with
    | some f =>
      let c := f text
      if (1 : Rat) / 2 ≤ c then "positive"
      else if c ≤ -(3 : Rat) / 10 then "alarm"
      else if c < 0 then "concern"
      else "neutral"
    | none => _simple_sentiment text

/-- An item as produced by a provider adapter (`fetch_newsapi` /
`fetch_twitter`), before the combined pipeline touches it.
`timestamp = none` models a non-string timestamp value (the
`isinstance(ts, str)` check in `fetch_combined_news`);
`link`/`id` are optional (`None`). -/
structure RawItem where
  id : Option String
  title : String
  source : String
  timestamp : Option String
  link : Option String
  deriving Repr, DecidableEq

/-- An item after the per-item normalization loop of
`fetch_combined_news`: timestamp is a string, sentiment and domain are
filled in. -/
structure NewsItem where
  id : Option String
  title : String
  source : String
  timestamp : String
  link : Option String
  domain : Option String
  sentiment : String
  deriving Repr, DecidableEq

/-- The per-item body of the first loop of `fetch_combined_news`
(lines 210-232): copy the item, classify sentiment on the title,
"normalize" the timestamp (a string timestamp is kept verbatim — both
branches of the `endswith("Z")` test assign `iso_ts = ts`; a non-string
one is replaced by the current clock rendering `nowStr`), and extract
the domain from the link.  `netloc` models `urlparse(·).netloc`. -/
def normalizeItem (scorer : Option (String → Rat)) (netloc : String → String)
    (nowStr : String) (it : RawItem) : NewsItem :=
  { id := it.id
    title := it.title
    source := it.source
    timestamp := match it.timestamp with
      | some s => s
      | none => nowStr
    link := it.link
    domain := match it.link with
      | some l => if l = "" then none else some (netloc l)
      | none => none
    sentiment := _enhanced_sentiment scorer it.title }

/-- The dedup key of line 238: `it.get("link") or
it.get("title", "").strip().lower()` — the link when present and
non-empty (Python truthiness), else the trimmed lowercased title. -/
def dedupKey (it : NewsItem) : String :=
  match it.link with
  | some l => if l = "" then it.title.trim.toLower else l
  | none => it.title.trim.toLower

/-- The dedup loop of lines 235-244: `seen` is the set of keys already
kept; an item with an empty key is skipped, an item whose key was seen
is skipped, otherwise it is kept and its key recorded. -/
def dedupAux (seen : List String) : List NewsItem → List NewsItem
  | [] => []
  | it :: rest =>
    let key := dedupKey it
    if key = "" then dedupAux seen rest
    else if key ∈ seen then dedupAux seen rest
    else it :: dedupAux (key :: seen) rest

/-- A `datetime` object as produced by the sort key `_ts`
(lines 247-251): `aware t` is an offset-aware datetime denoting the
instant `t` (what `fromisoformat` returns for a string carrying an
offset, e.g. after the `Z` → `+00:00` rewrite); `naive t` is an
offset-naive datetime (an offset-free string, or the
`datetime.utcnow()` fallback).  Python refuses to order an aware
against a naive datetime (`TypeError`). -/
inductive DT where
  | aware (t : Nat)
  | naive (t : Nat)
  deriving Repr, DecidableEq

/-- The instant carried by a datetime, aware or naive. -/
def DT.val : DT → Nat
  | .aware t => t
  | .naive t => t

/-- Whether a datetime is offset-aware. -/
def DT.isAware : DT → Bool
  | .aware _ => true
  | .naive _ => false

/-- The sort-key value of an item under `parse`, when its timestamp
parses (the default is irrelevant under that hypothesis). -/
def tsValOf (parse : String → Option DT) (it : NewsItem) : Nat :=
  ((parse it.timestamp).getD (DT.naive 0)).val

/-- The item-level descending comparator used to describe the sorted
order when every key parses: `a` may precede `b` iff the instant of `b`
is at most the instant of `a`. -/
def tsLe (parse : String → Option DT) (a b : NewsItem) : Bool :=
  decide (tsValOf parse b ≤ tsValOf parse a)

/-- The decorate phase of `sorted(deduped, key=_ts, reverse=True)`
(line 253): CPython computes `_ts` once per element, in list order.
`parse` models `datetime.fromisoformat(ts.replace('Z', '+00:00'))`
(`none` = it raises); a parse failure at position `i` falls back to a
fresh `datetime.utcnow()` reading, modelled by `nows i` (offset-naive).
The position index stands for the order of the clock readings. -/
def decorateFrom (parse : String → Option DT) (nows : Nat → Nat) :
    Nat → List NewsItem → List (NewsItem × DT)
  | _, [] => []
  | i, it :: rest =>
    (it, (parse it.timestamp).getD (DT.naive (nows i))) ::
      decorateFrom parse nows (i + 1) rest

/-- Key decoration of a whole list, starting at position 0. -/
def decorate (parse : String → Option DT) (nows : Nat → Nat)
    (items : List NewsItem) : List (NewsItem × DT) :=
  decorateFrom parse nows 0 items

/-- The comparator on decorated elements: descending by instant.  It is
only consulted when both keys are of one kind (see `sortByTs`). -/
def keyLe (p q : NewsItem × DT) : Bool :=
  decide (q.2.val ≤ p.2.val)

/-- Whether a key list mixes offset-aware and offset-naive datetimes. -/
def mixedKinds (keys : List DT) : Bool :=
  keys.any (fun k => k.isAware) && keys.any (fun k => !k.isAware)

/-- `sorted(deduped, key=_ts, reverse=True)` (line 253).  Timsort
compares adjacent elements while detecting runs, and a list holding
both an aware and a naive key always has an adjacent mixed pair, so a
mixed key list raises `TypeError`; with keys of one kind every
comparison is by instant and the sort is the stable descending order. -/
def sortByTs (parse : String → Option DT) (nows : Nat → Nat)
    (items : List NewsItem) : Except String (List NewsItem) :=
  let dec := decorate parse nows items
  if mixedKinds (dec.map Prod.snd) then
    .error "TypeError: cannot compare offset-naive and offset-aware datetimes"
  else
    .ok ((dec.mergeSort keyLe).map Prod.fst)

/-- The Normalizer/Deduplicator tail of `fetch_combined_news`
(lines 234-254): dedup, stable sort by timestamp descending — which can
raise `TypeError` on a mixed key list — then truncate to `limit`. -/
def postProcess (parse : String → Option DT) (nows : Nat → Nat)
    (limit : Nat) (items : List NewsItem) : Except String (List NewsItem) :=
  (sortByTs parse nows (dedupAux [] items)).map (fun l => l.take limit)

/-- The ambient environment of one aggregation call: the circuit-breaker
configuration (`_FAIL_THRESHOLD`, `_BACKOFF_BASE`), the clock `now`
used for eligibility checks and backoff stamps, and the external
functions the pipeline depends on (sentiment analyzer, `urlparse`
netloc, the clock rendered as an ISO string, the sort-key parser
`parse` with the successive `datetime.utcnow()` readings `nows` its
failure fallback consumes). -/
structure Env where
  threshold : Nat
  base : Nat
  now : Nat
  scorer : Option (String → Rat)
  netloc : String → String
  nowStr : String
  parse : String → Option DT
  nows : Nat → Nat

/-- One adapter attempt (the shared skeleton of `fetch_newsapi` and
`fetch_twitter`, credentials already known present): if the provider is
in backoff, raise `"provider in backoff"` without touching state;
otherwise the network outcome decides: success resets the health record
to `{fails: 0}` (clearing `backoff_until`), failure applies
`recordFailure` and re-raises.  `outcome` models the external HTTP
exchange: `.ok items` is a 2xx response already mapped to `RawItem`s,
`.error e` a transport/HTTP failure. -/
def attemptFetch (env : Env) (st : HealthState) (name : String)
    (outcome : Except String (List RawItem)) :
    Except String (List RawItem) × HealthState :=
  if _provider_ok st name env.now then
    match outcome with
    | .ok data => (.ok data, setHealth st name ⟨0, none⟩)
    | .error e =>
      (.error e,
       setHealth st name
         (recordFailure env.threshold env.base env.now (getHealth st name)))
  else
    (.error "provider in backoff", st)

/-- The fan-out of `fetch_combined_news`: run every configured
provider's attempt, collecting each result (success or exception, as
`asyncio.gather(..., return_exceptions=True)` does) and threading the
shared `_provider_state`. -/
def runProviders (env : Env) :
    HealthState → List (String × Except String (List RawItem)) →
    List (Except String (List RawItem)) × HealthState
  | st, [] => ([], st)
  | st, (name, outcome) :: rest =>
    let r := attemptFetch env st name outcome
    let rs := runProviders env r.2 rest
    (r.1 :: rs.1, rs.2)

/-- The collection loop of lines 206-232: skip results that are
exceptions, normalize every item of each successful result, in
provider-iteration order. -/
def collectItems (scorer : Option (String → Rat)) (netloc : String → String)
    (nowStr : String) :
    List (Except String (List RawItem)) → List NewsItem
  | [] => []
  | .error _ :: rest => collectItems scorer netloc nowStr rest
  | .ok l :: rest =>
    l.map (normalizeItem scorer netloc nowStr) ++
      collectItems scorer netloc nowStr rest

/-- `fetch_combined_news`: each configured provider appears in
`providers` with its name and the outcome its HTTP exchange would have.
With no providers configured it raises
`"No external news providers configured"` before anything else runs;
otherwise it gathers all attempts, absorbs per-adapter exceptions,
normalizes, dedups, sorts by recency — the unguarded sort at line 253
can raise `TypeError`, which propagates to the caller — and truncates
to `limit`. -/
def fetch_combined_news (env : Env) (limit : Nat) (st : HealthState)
    (providers : List (String × Except String (List RawItem))) :
    Except String (List NewsItem) × HealthState :=
  if providers.isEmpty then
    (.error "No external news providers configured", st)
  else
    let rs := runProviders env st providers
    (postProcess env.parse env.nows limit
       (collectItems env.scorer env.netloc env.nowStr rs.1),
     rs.2)

/-- Reading back the entry just written. -/
theorem getHealth_setHealth_self (st : HealthState) (name : String)
    (h : ProviderHealth) : getHealth (setHealth st name h) name = some h := by
  induction st with
  | nil => simp [setHealth, getHealth]
  | cons p rest ih =>
    obtain ⟨n, h0⟩ := p
    by_cases hn : n = name
    · simp [setHealth, getHealth, hn]
    · simp only [setHealth, beq_iff_eq, hn, if_false]
      simpa [getHealth, hn] using ih

/-- Writing one provider's entry leaves every other name's entry
untouched. -/
theorem getHealth_setHealth_ne (st : HealthState) (name m : String)
    (h : ProviderHealth) (hne : m ≠ name) :
    getHealth (setHealth st name h) m = getHealth st m := by
  induction st with
  | nil => simp [setHealth, getHealth, beq_iff_eq, Ne.symm hne]
  | cons p rest ih =>
    obtain ⟨n, h0⟩ := p
    by_cases hn : n = name
    · subst hn
      simp [setHealth, getHealth, beq_iff_eq, Ne.symm hne]
    · simp only [setHealth, beq_iff_eq, hn, if_false]
      by_cases hm : n = m
      · simp [getHealth, hm]
      · simpa [getHealth, hm] using ih

/-- Eligibility depends only on the provider's own entry. -/
theorem provider_ok_congr (st st' : HealthState) (name : String) (now : Nat)
    (h : getHealth st name = getHealth st' name) :
    _provider_ok st name now = _provider_ok st' name now := by
  unfold _provider_ok
  rw [h]

/-- An adapter attempt touches no other provider's entry. -/
theorem getHealth_attemptFetch_ne (env : Env) (st : HealthState)
    (name m : String) (outcome : Except String (List RawItem))
    (hne : m ≠ name) :
    getHealth (attemptFetch env st name outcome).2 m = getHealth st m := by
  unfold attemptFetch
  by_cases h : _provider_ok st name env.now
  · cases outcome <;> simp [h, getHealth_setHealth_ne st name m _ hne]
  · simp [h]

/-- C3: the eligibility query `_provider_ok` is a pure read (it takes
the health state and returns only a `Bool`, no updated state) and holds
iff the provider has no health record, or its record has no
`backoff_until`, or `now >= backoff_until`; in particular an ineligible
provider becomes eligible at the instant `now >= backoff_until`, with
no probe request involved. -/
theorem C3_eligibility_time_pure (st : HealthState) (name : String)
    (now : Nat) :
    _provider_ok st name now = true ↔
      (getHealth st name = none ∨
        ∃ h, getHealth st name = some h ∧
          (h.backoff_until = none ∨
            ∃ b, h.backoff_until = some b ∧ b ≤ now)) := by
  cases hg : getHealth st name with
  | none => simp [_provider_ok, hg]
  | some s =>
    cases hb : s.backoff_until with
    | none => simp [_provider_ok, hg, hb]
    | some b =>
      by_cases hlt : now < b
      · simp only [_provider_ok, hg, hb, if_pos hlt]
        constructor
        · intro h; simp at h
        · rintro (h | ⟨h', hh', hne | ⟨b', hb', hle⟩⟩)
          · simp at h
          · injection hh' with hh'; subst hh'; rw [hb] at hne; cases hne
          · injection hh' with hh'; subst hh'; rw [hb] at hb'
            injection hb' with hb'; omega
      · simp only [_provider_ok, hg, hb, if_neg hlt]
        constructor
        · intro _; exact Or.inr ⟨s, rfl, Or.inr ⟨b, hb, by omega⟩⟩
        · intro _; trivial

/-- Witness for C3: a provider with `backoff_until = 10` is eligible at
`now = 10` (obtained through the theorem) and ineligible at `now = 9`. -/
theorem C3_eligibility_time_pure_witness :
    _provider_ok [("newsapi", ⟨3, some 10⟩)] "newsapi" 10 = true ∧
    _provider_ok [("newsapi", ⟨3, some 10⟩)] "newsapi" 9 = false := by
  constructor
  · exact (C3_eligibility_time_pure [("newsapi", ⟨3, some 10⟩)] "newsapi"
      10).mpr (Or.inr ⟨⟨3, some 10⟩, rfl, Or.inr ⟨10, rfl, le_refl 10⟩⟩)
  · rfl

/-- C4: with zero providers configured `fetch_combined_news` fails with
the no-providers error and returns the health state exactly as it
received it — no record is created or mutated. -/
theorem C4_zero_providers (env : Env) (limit : Nat) (st : HealthState) :
    fetch_combined_news env limit st [] =
      (.error "No external news providers configured", st) := rfl

/-- C2: an attempt on an eligible provider updates its health record as
the circuit breaker prescribes: a failure increments `fails` by exactly
one and, once `fails` has reached the threshold, stamps
`backoff_until = now + base * 2 ^ (fails - threshold)`; a success
resets the record to `fails = 0` with `backoff_until` cleared. -/
theorem C2_health_transition (env : Env) (st : HealthState) (name : String)
    (outcome : Except String (List RawItem))
    (helig : _provider_ok st name env.now = true) :
    (∀ e, outcome = .error e →
      ∃ h, getHealth (attemptFetch env st name outcome).2 name = some h ∧
        h.fails = ((getHealth st name).getD ⟨0, none⟩).fails + 1 ∧
        (env.threshold ≤ h.fails →
          h.backoff_until =
            some (env.now + env.base * 2 ^ (h.fails - env.threshold)))) ∧
    (∀ l, outcome = .ok l →
      getHealth (attemptFetch env st name outcome).2 name = some ⟨0, none⟩) := by
  constructor
  · rintro e rfl
    refine ⟨recordFailure env.threshold env.base env.now (getHealth st name),
      ?_, ?_, ?_⟩
    · simp [attemptFetch, helig, getHealth_setHealth_self]
    · by_cases hc :
        env.threshold ≤ ((getHealth st name).getD ⟨0, none⟩).fails + 1
      · simp [recordFailure, hc]
      · simp [recordFailure, hc]
    · intro hth
      by_cases hc :
        env.threshold ≤ ((getHealth st name).getD ⟨0, none⟩).fails + 1
      · simp [recordFailure, hc]
      · exfalso
        simp [recordFailure, hc] at hth
  · rintro l rfl
    simp [attemptFetch, helig, getHealth_setHealth_self]

/-- Witness for C2: with threshold 3, base 60 and a current failure
count of 2, a third failure produces `fails = 3` and
`backoff_until = 60`; further concrete failures at counts 4 and 5
produce backoffs 120 and 240, and a success resets to `(0, none)`. -/
theorem C2_health_transition_witness :
    _provider_ok [("newsapi", ⟨2, none⟩)] "newsapi" (0 : Nat) = true ∧
    (∃ h, getHealth (attemptFetch ⟨3, 60, 0, none, fun _ => "", "", fun _ => none, fun _ => 0⟩
        [("newsapi", ⟨2, none⟩)] "newsapi" (.error "boom")).2 "newsapi" = some h ∧
      h.fails = 3 ∧ h.backoff_until = some 60) ∧
    recordFailure 3 60 0 (some ⟨3, some 60⟩) = ⟨4, some 120⟩ ∧
    recordFailure 3 60 0 (some ⟨4, some 120⟩) = ⟨5, some 240⟩ ∧
    getHealth (attemptFetch ⟨3, 60, 0, none, fun _ => "", "", fun _ => none, fun _ => 0⟩
        [("newsapi", ⟨5, some 0⟩)] "newsapi" (.ok [])).2 "newsapi" =
      some ⟨0, none⟩ := by
  refine ⟨rfl, ?_, by decide, by decide, ?_⟩
  · obtain ⟨h, hget, hf, hb⟩ :=
      (C2_health_transition ⟨3, 60, 0, none, fun _ => "", "", fun _ => none, fun _ => 0⟩
        [("newsapi", ⟨2, none⟩)] "newsapi" (.error "boom") rfl).1 "boom" rfl
    have hf3 : h.fails = 3 := hf
    refine ⟨h, hget, hf3, ?_⟩
    have hth := hb (by rw [hf3])
    rw [hf3] at hth
    simpa using hth
  · exact (C2_health_transition ⟨3, 60, 0, none, fun _ => "", "", fun _ => none, fun _ => 0⟩
      [("newsapi", ⟨5, some 0⟩)] "newsapi" (.ok []) rfl).2 [] rfl

/-- An eligible provider's attempt with a normal response succeeds and
resets its health record. -/
theorem attemptFetch_ok (env : Env) (st : HealthState) (name : String)
    (l : List RawItem) (h : _provider_ok st name env.now = true) :
    attemptFetch env st name (.ok l) = (.ok l, setHealth st name ⟨0, none⟩) := by
  simp [attemptFetch, h]

/-- If every configured provider's HTTP exchange fails, every gathered
result is an exception (either the transport error or the backoff
rejection). -/
theorem runProviders_all_error (env : Env) :
    ∀ (providers : List (String × Except String (List RawItem)))
      (st : HealthState),
      (∀ p ∈ providers, ∃ e, p.2 = Except.error e) →
      ∀ r ∈ (runProviders env st providers).1, ∃ e, r = Except.error e := by
  intro providers
  induction providers with
  | nil => intro st _ r hr; simp [runProviders] at hr
  | cons p rest ih =>
    intro st hall r hr
    obtain ⟨name, outcome⟩ := p
    obtain ⟨e, he⟩ := hall (name, outcome) (by simp)
    simp only at he
    subst he
    simp only [runProviders, List.mem_cons] at hr
    rcases hr with hr | hr
    · subst hr
      unfold attemptFetch
      by_cases h : _provider_ok st name env.now
      · exact ⟨e, by simp [h]⟩
      · exact ⟨"provider in backoff", by simp [h]⟩
    · exact ih _ (fun q hq => hall q (by simp [hq])) r hr

/-- Results that are all exceptions contribute no items. -/
theorem collectItems_all_error (scorer : Option (String → Rat))
    (netloc : String → String) (nowStr : String) :
    ∀ rs : List (Except String (List RawItem)),
      (∀ r ∈ rs, ∃ e, r = Except.error e) →
      collectItems scorer netloc nowStr rs = [] := by
  intro rs
  induction rs with
  | nil => intro _; rfl
  | cons r rest ih =>
    intro hall
    obtain ⟨e, he⟩ := hall r (by simp)
    subst he
    simpa [collectItems] using ih (fun q hq => hall q (by simp [hq]))

/-- The pipeline applied to no items succeeds with no items (no sort
comparison happens, so no `TypeError` can arise). -/
theorem postProcess_nil (parse : String → Option DT) (nows : Nat → Nat)
    (limit : Nat) : postProcess parse nows limit [] = .ok [] := by
  simp [postProcess, dedupAux, sortByTs, decorate, decorateFrom, mixedKinds,
    Except.map]

/-- C10 (implicit): with at least one provider configured,
`fetch_combined_news` never raises because of adapter failures — if
every configured adapter's exchange errors, it returns a successful
empty list rather than propagating any adapter exception. -/
theorem C10_all_adapters_fail (env : Env) (limit : Nat) (st : HealthState)
    (providers : List (String × Except String (List RawItem)))
    (hne : providers ≠ [])
    (hall : ∀ p ∈ providers, ∃ e, p.2 = Except.error e) :
    (fetch_combined_news env limit st providers).1 = .ok [] := by
  unfold fetch_combined_news
  rw [if_neg (by simpa [List.isEmpty_iff] using hne)]
  simp only
  rw [collectItems_all_error env.scorer env.netloc env.nowStr _
        (runProviders_all_error env providers st hall),
      postProcess_nil]


/-- Witness for C10: one configured provider whose exchange fails; the
call returns `ok []`. -/
theorem C10_all_adapters_fail_witness :
    (fetch_combined_news ⟨3, 60, 0, none, fun _ => "", "", fun _ => none, fun _ => 0⟩
        5 [] [("newsapi", .error "http 500")]).1 = .ok [] := by
  refine C10_all_adapters_fail _ 5 [] _ (by simp) ?_
  intro p hp
  simp only [List.mem_singleton] at hp
  subst hp
  exact ⟨"http 500", rfl⟩

/-- A provider attempt fails (returns an exception) whenever its HTTP
exchange errors or the provider is in backoff at the state it sees. -/
theorem attemptFetch_fails (env : Env) (st : HealthState) (name : String)
    (o : Except String (List RawItem))
    (h : (∃ e, o = Except.error e) ∨ _provider_ok st name env.now = false) :
    ∃ e, (attemptFetch env st name o).1 = Except.error e := by
  rcases h with ⟨e, rfl⟩ | h
  · by_cases hp : _provider_ok st name env.now
    · exact ⟨e, by simp [attemptFetch, hp]⟩
    · exact ⟨"provider in backoff", by simp [attemptFetch, hp]⟩
  · exact ⟨"provider in backoff", by simp [attemptFetch, h]⟩

/-- Counterexample for C1 as frozen: two providers, the first fails
with a transport error, the second returns two items — one with a `Z`
(offset-aware) timestamp and one with an unparseable timestamp (whose
sort key falls back to an offset-naive `utcnow()`) — and the call
raises `TypeError` out of the unguarded `sorted` at line 253 instead
of succeeding, even though one adapter returned non-error. -/
theorem C1_counterexample_mixed_keys :
    (fetch_combined_news
        ⟨3, 60, 0, none, fun _ => "h", "Z",
         fun s => if s = "2024-01-01T10:00:00Z" then some (.aware 100)
           else none,
         fun _ => 7⟩
        5 [] [("newsapi", .error "http 500"),
              ("twitter", .ok [⟨some "t1", "calm day", "Twitter",
                                some "2024-01-01T10:00:00Z",
                                some "https://x/t1"⟩,
                               ⟨some "t2", "quiet day", "Twitter",
                                some "garbage",
                                some "https://x/t2"⟩])]).1 =
      .error
        "TypeError: cannot compare offset-naive and offset-aware datetimes"
      := by
  rfl

/-- C1 (amended): with two providers configured — in either order —
where one adapter's attempt fails (a transport error, or a backoff
rejection) and the other is eligible and answers normally with items
`l`, the failing adapter removes only its own contribution: the call's
result is exactly the pipeline applied to the surviving adapter's
normalized items alone; and provided those items' sort keys do not mix
offset-aware with offset-naive datetimes, the call succeeds (even when
`l = []`). -/
theorem C1_partial_tolerance (env : Env) (limit : Nat) (st : HealthState)
    (nf ns : String) (o : Except String (List RawItem)) (l : List RawItem)
    (providers : List (String × Except String (List RawItem)))
    (hne : nf ≠ ns)
    (hfail : (∃ e, o = Except.error e) ∨ _provider_ok st nf env.now = false)
    (helig : _provider_ok st ns env.now = true)
    (hp : providers = [(nf, o), (ns, .ok l)] ∨
          providers = [(ns, .ok l), (nf, o)])
    (hcmp : mixedKinds ((decorate env.parse env.nows
        (dedupAux []
          (l.map (normalizeItem env.scorer env.netloc env.nowStr)))).map
        Prod.snd) = false) :
    (fetch_combined_news env limit st providers).1 =
      postProcess env.parse env.nows limit
        (l.map (normalizeItem env.scorer env.netloc env.nowStr)) ∧
    ∃ out, (fetch_combined_news env limit st providers).1 =
      Except.ok out := by
  have hmain : (fetch_combined_news env limit st providers).1 =
      postProcess env.parse env.nows limit
        (l.map (normalizeItem env.scorer env.netloc env.nowStr)) := by
    rcases hp with rfl | rfl
    · obtain ⟨e, he⟩ := attemptFetch_fails env st nf o hfail
      have helig' :
          _provider_ok (attemptFetch env st nf o).2 ns env.now = true := by
        rw [provider_ok_congr _ st ns env.now
          (getHealth_attemptFetch_ne env st nf ns o (Ne.symm hne))]
        exact helig
      unfold fetch_combined_news
      rw [if_neg (by simp)]
      simp only [runProviders, attemptFetch_ok env _ ns l helig', he]
      simp [collectItems]
    · unfold fetch_combined_news
      rw [if_neg (by simp)]
      have hok := attemptFetch_ok env st ns l helig
      have hfail2 : (∃ e, o = Except.error e) ∨
          _provider_ok (setHealth st ns ⟨0, none⟩) nf env.now = false := by
        rcases hfail with h | h
        · exact Or.inl h
        · refine Or.inr ?_
          rw [provider_ok_congr _ st nf env.now
            (getHealth_setHealth_ne st ns nf ⟨0, none⟩ hne)]
          exact h
      obtain ⟨e, he⟩ :=
        attemptFetch_fails env (setHealth st ns ⟨0, none⟩) nf o hfail2
      simp only [runProviders, hok, he]
      simp [collectItems]
  refine ⟨hmain, ?_⟩
  rw [hmain]
  simp only [postProcess, sortByTs, hcmp, Bool.false_eq_true, if_false,
    Except.map]
  exact ⟨_, rfl⟩

/-- Witness for C1: provider `newsapi` fails with a transport error,
provider `twitter` answers with one raw item whose timestamp parses
offset-aware (no naive/aware mix); the call succeeds with the
post-processed normalization of that single item. -/
theorem C1_partial_tolerance_witness :
    (fetch_combined_news
        ⟨3, 60, 0, none, fun _ => "h", "Z",
         fun s => if s = "2024-01-01T10:00:00Z" then some (.aware 100)
           else none,
         fun _ => 7⟩
        5 [] [("newsapi", .error "http 500"),
              ("twitter", .ok [⟨some "t1", "calm day", "Twitter",
                                some "2024-01-01T10:00:00Z",
                                some "https://x/t1"⟩])]).1 =
      postProcess
        (fun s => if s = "2024-01-01T10:00:00Z" then some (.aware 100)
          else none)
        (fun _ => 7) 5
        ([⟨some "t1", "calm day", "Twitter", some "2024-01-01T10:00:00Z",
           some "https://x/t1"⟩].map
          (normalizeItem none (fun _ => "h") "Z")) ∧
    ∃ out,
      (fetch_combined_news
          ⟨3, 60, 0, none, fun _ => "h", "Z",
           fun s => if s = "2024-01-01T10:00:00Z" then some (.aware 100)
             else none,
           fun _ => 7⟩
          5 [] [("newsapi", .error "http 500"),
                ("twitter", .ok [⟨some "t1", "calm day", "Twitter",
                                  some "2024-01-01T10:00:00Z",
                                  some "https://x/t1"⟩])]).1 =
        Except.ok out := by
  exact C1_partial_tolerance _ 5 [] "newsapi" "twitter" (.error "http 500") _ _
    (by decide) (Or.inl ⟨"http 500", rfl⟩) rfl (Or.inl rfl) (by rfl)

/-- Characterisation of the dedup loop: an item is kept iff its key is
non-empty, not already claimed by `seen`, and the item is the first
element of the input carrying its key. -/
theorem mem_dedupAux (x : NewsItem) :
    ∀ (l : List NewsItem) (seen : List String),
    x ∈ dedupAux seen l ↔
      dedupKey x ≠ "" ∧ dedupKey x ∉ seen ∧
        l.find? (fun it => dedupKey it == dedupKey x) = some x := by
  intro l
  induction l with
  | nil => intro seen; simp [dedupAux]
  | cons it rest ih =>
    intro seen
    simp only [dedupAux]
    by_cases hk : dedupKey it = ""
    · rw [if_pos hk, ih seen]
      by_cases hx : dedupKey x = ""
      · simp [hx]
      · rw [List.find?_cons_of_neg _
          (by simp only [beq_iff_eq, hk]; exact Ne.symm hx)]
    · rw [if_neg hk]
      by_cases hs : dedupKey it ∈ seen
      · rw [if_pos hs, ih seen]
        by_cases hx : dedupKey x = dedupKey it
        · have hxs : dedupKey x ∈ seen := by rw [hx]; exact hs
          simp [hxs]
        · rw [List.find?_cons_of_neg _
            (by simp only [beq_iff_eq]; exact fun h => hx h.symm)]
      · rw [if_neg hs, List.mem_cons, ih (dedupKey it :: seen)]
        by_cases hx : dedupKey x = dedupKey it
        · rw [List.find?_cons_of_pos _ (by simp [hx])]
          constructor
          · rintro (rfl | ⟨h1, h2, h3⟩)
            · exact ⟨hk, hs, rfl⟩
            · exact absurd (by rw [hx]; exact List.mem_cons_self _ _) h2
          · rintro ⟨h1, h2, h3⟩
            injection h3 with h3
            exact Or.inl h3.symm
        · rw [List.find?_cons_of_neg _
            (by simp only [beq_iff_eq]; exact fun h => hx h.symm)]
          constructor
          · rintro (rfl | ⟨h1, h2, h3⟩)
            · exact absurd rfl hx
            · exact ⟨h1, fun hm => h2 (List.mem_cons_of_mem _ hm), h3⟩
          · rintro ⟨h1, h2, h3⟩
            refine Or.inr ⟨h1, ?_, h3⟩
            intro hm
            rcases List.mem_cons.mp hm with hm | hm
            · exact hx hm
            · exact h2 hm

/-- C6: an item survives dedup iff its key (the link when present and
non-empty, else the case-folded trimmed title) is non-empty and it is
the first occurrence of that key in provider-iteration order; later
duplicates are discarded and every kept item has a non-empty identity. -/
theorem C6_dedup_first_wins (l : List NewsItem) (x : NewsItem) :
    x ∈ dedupAux [] l ↔
      dedupKey x ≠ "" ∧
        l.find? (fun it => dedupKey it == dedupKey x) = some x := by
  rw [mem_dedupAux x l []]
  simp

/-- Witness for C6, the spec's own scenario: two items with the same
link, the merged result keeps exactly the first. -/
theorem C6_dedup_first_wins_witness :
    (⟨some "u1", "Flu spike", "NewsAPI", "2024-01-01T10:00:00Z", some "u1",
        none, "alarm"⟩ : NewsItem) ∈
      dedupAux []
        [⟨some "u1", "Flu spike", "NewsAPI", "2024-01-01T10:00:00Z", some "u1",
            none, "alarm"⟩,
         ⟨some "u1", "flu spike", "Twitter", "2024-01-01T09:00:00Z", some "u1",
            none, "alarm"⟩] ∧
    dedupAux []
        [⟨some "u1", "Flu spike", "NewsAPI", "2024-01-01T10:00:00Z", some "u1",
            none, "alarm"⟩,
         ⟨some "u1", "flu spike", "Twitter", "2024-01-01T09:00:00Z", some "u1",
            none, "alarm"⟩] =
      [⟨some "u1", "Flu spike", "NewsAPI", "2024-01-01T10:00:00Z", some "u1",
          none, "alarm"⟩] := by
  constructor
  · exact (C6_dedup_first_wins _ _).mpr ⟨by decide, by decide⟩
  · decide

/-- The item-level descending comparator is transitive. -/
theorem tsLe_trans (parse : String → Option DT) :
    ∀ a b c : NewsItem, tsLe parse a b → tsLe parse b c →
      tsLe parse a c := by
  intro a b c hab hbc
  simp only [tsLe, decide_eq_true_eq] at *
  omega

/-- The item-level descending comparator is total. -/
theorem tsLe_total (parse : String → Option DT) :
    ∀ a b : NewsItem, tsLe parse a b || tsLe parse b a := by
  intro a b
  simp only [tsLe, Bool.or_eq_true, decide_eq_true_eq]
  omega

/-- When every item's timestamp parses, decoration is independent of
the clock readings: each element is paired with its parsed datetime. -/
theorem decorateFrom_all_parsed (parse : String → Option DT)
    (nows : Nat → Nat) :
    ∀ (items : List NewsItem),
    (∀ x ∈ items, (parse x.timestamp).isSome = true) →
    ∀ i, decorateFrom parse nows i items =
      items.map (fun x => (x, (parse x.timestamp).getD (DT.naive 0))) := by
  intro items
  induction items with
  | nil => intro _ i; rfl
  | cons it rest ih =>
    intro h i
    obtain ⟨k, hk⟩ :=
      Option.isSome_iff_exists.mp (h it (List.mem_cons_self _ _))
    simp only [decorateFrom, List.map_cons, hk, Option.getD_some]
    rw [ih (fun x hx => h x (List.mem_cons_of_mem _ hx)) (i + 1)]

/-- A key list of one kind is not mixed. -/
theorem mixedKinds_eq_false_of_uniform (keys : List DT)
    (h : (∀ k ∈ keys, k.isAware = true) ∨ (∀ k ∈ keys, k.isAware = false)) :
    mixedKinds keys = false := by
  rcases h with h | h
  · have hno : keys.any (fun k => !k.isAware) = false := by
      rw [List.any_eq_false]
      intro k hk
      simp [h k hk]
    simp [mixedKinds, hno]
  · have hno : keys.any (fun k => k.isAware) = false := by
      rw [List.any_eq_false]
      intro k hk
      simp [h k hk]
    simp [mixedKinds, hno]

/-- When every timestamp of the input parses and the parsed datetimes
are of one kind (all offset-aware or all offset-naive), the sort
succeeds — no mixed comparison, hence no `TypeError` — and equals the
stable descending item-level sort by parsed instant, independently of
the clock readings. -/
theorem sortByTs_all_parsed (parse : String → Option DT) (nows : Nat → Nat)
    (items : List NewsItem)
    (hkind : (∀ x ∈ items, ∃ t, parse x.timestamp = some (DT.aware t)) ∨
             (∀ x ∈ items, ∃ t, parse x.timestamp = some (DT.naive t))) :
    sortByTs parse nows items = .ok (items.mergeSort (tsLe parse)) := by
  have hsome : ∀ x ∈ items, (parse x.timestamp).isSome = true := by
    rcases hkind with h | h <;>
      exact fun x hx => by obtain ⟨t, ht⟩ := h x hx; simp [ht]
  have hdec : decorate parse nows items =
      items.map (fun x => (x, (parse x.timestamp).getD (DT.naive 0))) :=
    decorateFrom_all_parsed parse nows items hsome 0
  have hmix :
      mixedKinds ((decorate parse nows items).map Prod.snd) = false := by
    rw [hdec]
    apply mixedKinds_eq_false_of_uniform
    rcases hkind with h | h
    · left
      intro k hk
      simp only [List.map_map, List.mem_map] at hk
      obtain ⟨x, hx, rfl⟩ := hk
      obtain ⟨t, ht⟩ := h x hx
      simp [Function.comp, ht, DT.isAware]
    · right
      intro k hk
      simp only [List.map_map, List.mem_map] at hk
      obtain ⟨x, hx, rfl⟩ := hk
      obtain ⟨t, ht⟩ := h x hx
      simp [Function.comp, ht, DT.isAware]
  have hms := @List.map_mergeSort NewsItem (NewsItem × DT) (tsLe parse)
    keyLe (fun x => (x, (parse x.timestamp).getD (DT.naive 0))) items
    (fun a _ b _ => rfl)
  unfold sortByTs
  simp only [hmix, Bool.false_eq_true, if_false]
  rw [hdec, ← hms, List.map_map]
  have hid : (Prod.fst ∘
      fun x : NewsItem => (x, (parse x.timestamp).getD (DT.naive 0))) =
        id := rfl
  rw [hid, List.map_id]

/-- The dedup loop leaves pairwise-distinct keys. -/
theorem pairwise_keys_dedupAux :
    ∀ (l : List NewsItem) (seen : List String),
    (dedupAux seen l).Pairwise (fun a b => dedupKey a ≠ dedupKey b) := by
  intro l
  induction l with
  | nil => intro seen; simp [dedupAux]
  | cons it rest ih =>
    intro seen
    simp only [dedupAux]
    by_cases hk : dedupKey it = ""
    · rw [if_pos hk]; exact ih seen
    · rw [if_neg hk]
      by_cases hs : dedupKey it ∈ seen
      · rw [if_pos hs]; exact ih seen
      · rw [if_neg hs]
        refine List.Pairwise.cons ?_ (ih _)
        intro y hy
        have hmem := (mem_dedupAux y rest (dedupKey it :: seen)).mp hy
        exact fun h => hmem.2.1 (by rw [← h]; exact List.mem_cons_self _ _)

/-- On a list whose keys are already non-empty, unseen and pairwise
distinct, the dedup loop is the identity. -/
theorem dedupAux_eq_self :
    ∀ (l : List NewsItem) (seen : List String),
    (∀ x ∈ l, dedupKey x ≠ "" ∧ dedupKey x ∉ seen) →
    l.Pairwise (fun a b => dedupKey a ≠ dedupKey b) →
    dedupAux seen l = l := by
  intro l
  induction l with
  | nil => intro seen _ _; rfl
  | cons it rest ih =>
    intro seen hall hpw
    obtain ⟨hk, hs⟩ := hall it (List.mem_cons_self _ _)
    simp only [dedupAux]
    rw [if_neg hk, if_neg hs]
    congr 1
    apply ih
    · intro x hx
      obtain ⟨h1, h2⟩ := hall x (List.mem_cons_of_mem _ hx)
      refine ⟨h1, ?_⟩
      intro hm
      rcases List.mem_cons.mp hm with hm | hm
      · exact (List.pairwise_cons.mp hpw).1 x hx hm.symm
      · exact h2 hm
    · exact (List.pairwise_cons.mp hpw).2

/-- A concrete normalized item from a first adapter (timestamp "2",
parsing offset-aware to instant 2 under `parseAware`). -/
def itemX : NewsItem :=
  ⟨some "https://a/1", "alpha news", "NewsAPI", "2", some "https://a/1",
    some "a", "neutral"⟩

/-- A concrete normalized item from a second adapter (timestamp "1",
parsing offset-aware to instant 1 under `parseAware`). -/
def itemY : NewsItem :=
  ⟨some "https://b/2", "beta news", "Twitter", "1", some "https://b/2",
    some "b", "neutral"⟩

/-- A concrete parser sending the timestamps "2" and "1" to
offset-aware instants — keys of one kind, so the sort succeeds. -/
def parseAware : String → Option DT :=
  fun s => if s = "2" then some (DT.aware 2)
    else if s = "1" then some (DT.aware 1) else none

/-- A concrete normalized item whose timestamp string parses to an
offset-naive datetime at instant 15. -/
def itemP : NewsItem :=
  ⟨some "https://a/1", "alpha news", "NewsAPI", "15", some "https://a/1",
    some "a", "neutral"⟩

/-- A concrete normalized item whose timestamp cannot be parsed, so its
sort key falls back to a fresh offset-naive `utcnow()` reading. -/
def itemU : NewsItem :=
  ⟨some "https://b/2", "beta news", "Twitter", "garbage", some "https://b/2",
    some "b", "neutral"⟩

/-- A concrete parser: the string "15" parses to an offset-naive
datetime at instant 15; everything else fails to parse. -/
def parseNaive : String → Option DT :=
  fun s => if s = "15" then some (DT.naive 15) else none

/-- Counterexample for C8 as frozen: the stage is not a pure function
of the item sequence — the `_ts` fallback takes a fresh
`datetime.utcnow()` reading per unparseable key, so re-running the
stage on its own output at a later clock can reorder items.  With an
item parsing to instant 15 and an unparseable item, a first run at
clock reading 10 returns `[itemP, itemU]` unchanged; re-running the
stage on that very output with the later reading 20 returns
`[itemU, itemP]`, a different sequence. -/
theorem C8_counterexample_fresh_clock :
    postProcess parseNaive (fun _ => 10) 2 [itemP, itemU] =
      .ok [itemP, itemU] ∧
    postProcess parseNaive (fun _ => 20) 2 [itemP, itemU] =
      .ok [itemU, itemP] ∧
    ([itemU, itemP] : List NewsItem) ≠ [itemP, itemU] := by
  refine ⟨?_, ?_, by decide⟩ <;>
    simp +decide [postProcess, sortByTs, decorate, decorateFrom, mixedKinds,
      dedupAux, dedupKey, keyLe, itemP, itemU, parseNaive, Except.map,
      List.mergeSort, List.merge, DT.val, DT.isAware]

/-- C8 (amended): on inputs whose timestamps all parse to datetimes of
one kind (all offset-aware or all offset-naive) — so that neither the
`TypeError` path nor the fresh-`utcnow()` fallback is involved — the
Normalizer/Deduplicator stage succeeds and is idempotent: re-applying
it to its own output, with any later clock readings, returns that
output unchanged. -/
theorem C8_pipeline_idempotent (parse : String → Option DT)
    (nows nows2 : Nat → Nat) (limit : Nat) (l : List NewsItem)
    (hkind : (∀ x ∈ l, ∃ t, parse x.timestamp = some (DT.aware t)) ∨
             (∀ x ∈ l, ∃ t, parse x.timestamp = some (DT.naive t))) :
    ∃ out, postProcess parse nows limit l = .ok out ∧
      postProcess parse nows2 limit out = .ok out := by
  have hsubmem : ∀ x ∈ dedupAux [] l, x ∈ l := fun x hx =>
    List.mem_of_find?_eq_some ((mem_dedupAux x l []).mp hx).2.2
  have hkindd :
      (∀ x ∈ dedupAux [] l, ∃ t, parse x.timestamp = some (DT.aware t)) ∨
      (∀ x ∈ dedupAux [] l, ∃ t, parse x.timestamp = some (DT.naive t)) := by
    rcases hkind with h | h
    · exact Or.inl (fun x hx => h x (hsubmem x hx))
    · exact Or.inr (fun x hx => h x (hsubmem x hx))
  have hpp1 : postProcess parse nows limit l =
      .ok (((dedupAux [] l).mergeSort (tsLe parse)).take limit) := by
    unfold postProcess
    rw [sortByTs_all_parsed parse nows _ hkindd]
    rfl
  refine ⟨((dedupAux [] l).mergeSort (tsLe parse)).take limit, hpp1, ?_⟩
  have hperm : List.Perm ((dedupAux [] l).mergeSort (tsLe parse))
      (dedupAux [] l) :=
    List.mergeSort_perm (dedupAux [] l) _
  have hpws :
      ((dedupAux [] l).mergeSort (tsLe parse)).Pairwise
        (fun a b => dedupKey a ≠ dedupKey b) :=
    (List.Perm.pairwise_iff (fun h => Ne.symm h) hperm).mpr
      (pairwise_keys_dedupAux l [])
  have hpwout :
      (((dedupAux [] l).mergeSort (tsLe parse)).take limit).Pairwise
        (fun a b => dedupKey a ≠ dedupKey b) :=
    List.Pairwise.sublist (List.take_sublist _ _) hpws
  have hmemd : ∀ x ∈ ((dedupAux [] l).mergeSort (tsLe parse)).take limit,
      x ∈ dedupAux [] l := fun x hx =>
    List.mem_mergeSort.mp ((List.take_sublist _ _).subset hx)
  have hkeysne :
      ∀ x ∈ ((dedupAux [] l).mergeSort (tsLe parse)).take limit,
        dedupKey x ≠ "" := fun x hx =>
    ((mem_dedupAux x l []).mp (hmemd x hx)).1
  have hdd :
      dedupAux [] (((dedupAux [] l).mergeSort (tsLe parse)).take limit) =
        ((dedupAux [] l).mergeSort (tsLe parse)).take limit :=
    dedupAux_eq_self _ [] (fun x hx => ⟨hkeysne x hx, by simp⟩) hpwout
  have hkindout :
      (∀ x ∈ ((dedupAux [] l).mergeSort (tsLe parse)).take limit,
        ∃ t, parse x.timestamp = some (DT.aware t)) ∨
      (∀ x ∈ ((dedupAux [] l).mergeSort (tsLe parse)).take limit,
        ∃ t, parse x.timestamp = some (DT.naive t)) := by
    rcases hkindd with h | h
    · exact Or.inl (fun x hx => h x (hmemd x hx))
    · exact Or.inr (fun x hx => h x (hmemd x hx))
  have houts :
      (((dedupAux [] l).mergeSort (tsLe parse)).take limit).Pairwise
        (fun a b => tsLe parse a b) :=
    List.Pairwise.sublist (List.take_sublist _ _)
      (List.sorted_mergeSort (tsLe_trans parse) (tsLe_total parse) _)
  unfold postProcess
  rw [hdd, sortByTs_all_parsed parse nows2 _ hkindout,
    List.mergeSort_of_sorted houts]
  simp only [Except.map, List.take_take, min_self]

/-- C5 counterexample for the claim as frozen: two adapters with one
item each (`limit = 1`, distinct non-empty keys), one timestamp
offset-aware (`2024-01-01T10:00:00Z`-like) and one unparseable — the
unguarded `sorted` at line 253 compares an offset-aware key with the
offset-naive `utcnow()` fallback and raises `TypeError`, so no
`limit`-length output exists at all. -/
theorem C5_counterexample_mixed_keys :
    (([itemX] : List NewsItem).length = 1 ∧
      ([itemU] : List NewsItem).length = 1 ∧
      ([itemX] ++ [itemU]).Pairwise (fun x y => dedupKey x ≠ dedupKey y) ∧
      (∀ x ∈ [itemX] ++ [itemU], dedupKey x ≠ "")) ∧
    postProcess (fun s => if s = "2" then some (DT.aware 2) else none)
        (fun _ => 10) 1 ([itemX] ++ [itemU]) =
      .error
        "TypeError: cannot compare offset-naive and offset-aware datetimes"
      := by
  refine ⟨⟨rfl, rfl, by decide, by decide⟩, ?_⟩
  rfl

/-- C5 (amended): with two providers each contributing `limit` items
whose keys are non-empty and pairwise distinct, and whose timestamps
all parse to datetimes of one kind (so the sort cannot raise
`TypeError`), the merged call succeeds and its output (i) has exactly
`limit` items, (ii) is sorted by timestamp descending, (iii) consists
of globally most-recent items — anything left out is no more recent
than anything kept — and (iv) the sort is stable: a tie keeps
provider-iteration order. -/
theorem C5_global_truncation (parse : String → Option DT)
    (nows : Nat → Nat) (limit : Nat) (a b : List NewsItem)
    (ha : a.length = limit) (hb : b.length = limit)
    (hkeys : (a ++ b).Pairwise (fun x y => dedupKey x ≠ dedupKey y))
    (hne : ∀ x ∈ a ++ b, dedupKey x ≠ "")
    (hkind : (∀ x ∈ a ++ b, ∃ t, parse x.timestamp = some (DT.aware t)) ∨
             (∀ x ∈ a ++ b, ∃ t, parse x.timestamp = some (DT.naive t))) :
    ∃ out, postProcess parse nows limit (a ++ b) = .ok out ∧
      out.length = limit ∧
      out.Pairwise (fun x y => tsValOf parse y ≤ tsValOf parse x) ∧
      (∀ x ∈ out, ∀ y ∈ a ++ b, y ∉ out →
        tsValOf parse y ≤ tsValOf parse x) ∧
      (∀ x y : NewsItem, List.Sublist [x, y] (a ++ b) →
        tsValOf parse x = tsValOf parse y →
        List.Sublist [x, y] ((a ++ b).mergeSort (tsLe parse))) := by
  have hdd : dedupAux [] (a ++ b) = a ++ b :=
    dedupAux_eq_self (a ++ b) [] (fun x hx => ⟨hne x hx, by simp⟩) hkeys
  have hpp : postProcess parse nows limit (a ++ b) =
      .ok (((a ++ b).mergeSort (tsLe parse)).take limit) := by
    unfold postProcess
    rw [hdd, sortByTs_all_parsed parse nows _ hkind]
    rfl
  have hsorted :
      ((a ++ b).mergeSort (tsLe parse)).Pairwise
        (fun x y => tsLe parse x y) :=
    List.sorted_mergeSort (tsLe_trans parse) (tsLe_total parse) _
  refine ⟨((a ++ b).mergeSort (tsLe parse)).take limit, hpp, ?_, ?_, ?_, ?_⟩
  · rw [List.length_take, List.length_mergeSort, List.length_append, ha, hb]
    omega
  · exact (List.Pairwise.sublist (List.take_sublist _ _) hsorted).imp
      (fun h => by simpa [tsLe, decide_eq_true_eq] using h)
  · intro x hx y hy hynot
    have hys : y ∈ (a ++ b).mergeSort (tsLe parse) :=
      List.mem_mergeSort.mpr hy
    rw [← List.take_append_drop limit ((a ++ b).mergeSort (tsLe parse))]
      at hys hsorted
    have hyd : y ∈ ((a ++ b).mergeSort (tsLe parse)).drop limit := by
      rcases List.mem_append.mp hys with h | h
      · exact absurd h hynot
      · exact h
    have := (List.pairwise_append.mp hsorted).2.2 x hx y hyd
    simpa [tsLe, decide_eq_true_eq] using this
  · intro x y hsub htie
    refine List.pair_sublist_mergeSort (tsLe_trans parse)
      (tsLe_total parse) ?_ hsub
    simp only [tsLe, decide_eq_true_eq]
    exact le_of_eq htie.symm

/-- Witness for C5: two adapters with one item each (`limit = 1`,
distinct non-empty keys, both timestamps parsing offset-aware); the
theorem yields the full conclusion at this input. -/
theorem C5_global_truncation_witness :
    (([itemX] : List NewsItem).length = 1 ∧
      ([itemY] : List NewsItem).length = 1 ∧
      ([itemX] ++ [itemY]).Pairwise (fun x y => dedupKey x ≠ dedupKey y) ∧
      (∀ x ∈ [itemX] ++ [itemY], dedupKey x ≠ "")) ∧
    ∃ out, postProcess parseAware (fun _ => 0) 1 ([itemX] ++ [itemY]) =
        .ok out ∧
      out.length = 1 ∧
      out.Pairwise (fun x y => tsValOf parseAware y ≤ tsValOf parseAware x) ∧
      (∀ x ∈ out, ∀ y ∈ [itemX] ++ [itemY], y ∉ out →
        tsValOf parseAware y ≤ tsValOf parseAware x) ∧
      (∀ x y : NewsItem, List.Sublist [x, y] ([itemX] ++ [itemY]) →
        tsValOf parseAware x = tsValOf parseAware y →
        List.Sublist [x, y]
          (([itemX] ++ [itemY]).mergeSort (tsLe parseAware))) := by
  refine ⟨⟨rfl, rfl, by decide, by decide⟩, ?_⟩
  refine C5_global_truncation parseAware (fun _ => 0) 1 [itemX] [itemY]
    rfl rfl (by decide) (by decide) ?_
  left
  intro x hx
  simp only [List.cons_append, List.nil_append, List.mem_cons,
    List.not_mem_nil, or_false] at hx
  rcases hx with rfl | rfl
  · exact ⟨2, rfl⟩
  · exact ⟨1, rfl⟩

/-- Witness for C8: both timestamps parse offset-aware, so the stage
succeeds and a second application with different (later) clock
readings returns the output unchanged. -/
theorem C8_pipeline_idempotent_witness :
    ∃ out, postProcess parseAware (fun _ => 10) 1 [itemX, itemY] =
        .ok out ∧
      postProcess parseAware (fun _ => 20) 1 out = .ok out := by
  refine C8_pipeline_idempotent parseAware _ _ 1 [itemX, itemY] ?_
  left
  intro x hx
  simp only [List.mem_cons, List.not_mem_nil, or_false] at hx
  rcases hx with rfl | rfl
  · exact ⟨2, rfl⟩
  · exact ⟨1, rfl⟩

/-- C7 (code behaviour at the failing inputs): the "normalization" step
keeps every string timestamp verbatim — a non-UTC offset string is not
rewritten to a canonical ISO-8601 UTC form, and an unparseable string
is not replaced by the aggregation's start time; only a non-string
timestamp is replaced by the current clock.  Both branches of the
`endswith("Z")` test in the source assign `iso_ts = ts`, contradicting
the adjacent comment `make sure it ends with Z`. -/
theorem C7_timestamp_passthrough :
    (normalizeItem none (fun _ => "") "2024-06-01T00:00:00Z"
        ⟨some "u", "t", "s", some "2024-01-01T10:00:00+05:00",
          none⟩).timestamp = "2024-01-01T10:00:00+05:00" ∧
    (normalizeItem none (fun _ => "") "2024-06-01T00:00:00Z"
        ⟨some "u", "t", "s", some "garbage", none⟩).timestamp = "garbage" ∧
    (normalizeItem none (fun _ => "") "2024-06-01T00:00:00Z"
        ⟨some "u", "t", "s", none, none⟩).timestamp =
      "2024-06-01T00:00:00Z" := ⟨rfl, rfl, rfl⟩

/-- The Tier-2 threshold mapping as the spec words it (§4.3): ≥ 0.5 →
positive, ≤ -0.3 → alarm, < 0 → concern, else neutral.  Stated from the
spec for comparison with the code path of `_enhanced_sentiment`. -/
def specThresholdMap (c : Rat) : String :=
  if (1 : Rat) / 2 ≤ c then "positive"
  else if c ≤ -(3 : Rat) / 10 then "alarm"
  else if c < 0 then "concern"
  else "neutral"

/-- Counterexample for C9 as frozen: with the statistical scorer
available and returning compound score 1 (≥ 0.5, so the claimed mapping
gives "positive"), the classifier on the empty text returns "neutral" —
the empty-text guard precedes the scorer, so the threshold mapping is
not applied to every input text. -/
theorem C9_counterexample_empty_text :
    _enhanced_sentiment (some (fun _ => (1 : Rat))) "" = "neutral" ∧
    specThresholdMap ((fun _ => (1 : Rat)) "") = "positive" ∧
    ("neutral" : String) ≠ "positive" := by
  refine ⟨rfl, ?_, by decide⟩
  norm_num [specThresholdMap]

/-- Tier 1 always answers within the five-label vocabulary. -/
theorem simple_sentiment_mem_labels (text : String) :
    _simple_sentiment text ∈
      (["neutral", "concern", "alarm", "advisory", "positive"] :
        List String) := by
  simp only [_simple_sentiment]
  split_ifs <;> simp

/-- C9 (amended): the classifier always returns exactly one of the five
labels; empty text is classified `neutral` without consulting the
scorer; on non-empty text an available scorer's compound score is
mapped by the fixed thresholds; and when the scorer is unavailable or
errors the result equals the Tier-1 lexical classification — the
failure is never visible to the caller. -/
theorem C9_two_tier_sentiment (scorer : Option (String → Rat))
    (text : String) :
    _enhanced_sentiment scorer text ∈
      (["neutral", "concern", "alarm", "advisory", "positive"] :
        List String) ∧
    (text = "" → _enhanced_sentiment scorer text = "neutral") ∧
    (∀ f, scorer = some f → text ≠ "" →
      _enhanced_sentiment scorer text = specThresholdMap (f text)) ∧
    (scorer = none →
      _enhanced_sentiment scorer text = _simple_sentiment text) := by
  refine ⟨?_, ?_, ?_, ?_⟩
  · unfold _enhanced_sentiment
    by_cases ht : text = ""
    · simp [ht]
    · rw [if_neg ht]
      cases scorer with
      | none => exact simple_sentiment_mem_labels text
      | some f =>
        show (if (1 : Rat) / 2 ≤ f text then "positive"
          else if f text ≤ -(3 : Rat) / 10 then "alarm"
          else if f text < 0 then "concern" else "neutral") ∈ _
        split_ifs <;> simp
  · intro ht
    simp [_enhanced_sentiment, ht]
  · rintro f rfl ht
    simp only [_enhanced_sentiment, specThresholdMap, if_neg ht]
  · rintro rfl
    by_cases ht : text = ""
    · simp [_enhanced_sentiment, _simple_sentiment, ht]
    · simp [_enhanced_sentiment, if_neg ht]

/-- Witness for C9 (amended): at a concrete scorer returning compound 1
and the non-empty text "x", the theorem yields the threshold mapping,
which evaluates to "positive"; with no scorer the result equals Tier 1
("alarm" for a text containing "outbreak"). -/
theorem C9_two_tier_sentiment_witness :
    _enhanced_sentiment (some (fun _ => (1 : Rat))) "x" = "positive" ∧
    _enhanced_sentiment none "flu outbreak in town" =
      _simple_sentiment "flu outbreak in town" := by
  constructor
  · have h := (C9_two_tier_sentiment (some (fun _ => (1 : Rat))) "x").2.2.1
      (fun _ => (1 : Rat)) rfl (by decide)
    rw [h]
    norm_num [specThresholdMap]
  · exact (C9_two_tier_sentiment none "flu outbreak in town").2.2.2 rfl

end NewsIngest
